import Mathlib

/-!
Verification of the simplekv log-structured key-value store (src/src/lib.rs).

The on-disk log is modelled as a `List Nat` of bytes and the open file handle
as an explicit cursor (byte position).  The Rust file is opened with
read/write/append/create; writes always land at end-of-file.  After any
buffered read or scan the underlying handle sits at end-of-file (the store's
files in every scenario are far smaller than the 8 KiB reader buffer, which is
filled to end-of-file on the first read), which the model reflects by setting
the cursor to the file length after each reading operation.

Release-build semantics are modelled: the `debug_assert_eq!` in
`process_record` is disabled (the source comments that it is compiled out in
optimized builds) and `key_len + val_len` is a wrapping 32-bit addition.
`Vec::split_off(key_len)` aborts the process when `key_len` exceeds the buffer
length; that outcome is modelled by the distinguished result `panicked`.
-/

namespace SimpleKVModel

abbrev ByteString := List Nat

/-- Decoded record, as in `struct KeyValuePair` of the source. -/
structure KeyValuePair where
  key : ByteString
  value : ByteString
  deriving Repr, DecidableEq

/-- CRC-32/IEEE reflected polynomial 0xEDB88320, as used by
`crc::crc32::checksum_ieee`. -/
def CRC32_POLY : Nat := 0xEDB88320

/-- One bit of the reflected CRC-32 update: shift right, conditionally xor
the polynomial. -/
def crcBitStep (c : Nat) : Nat :=
  if c % 2 = 1 then (c / 2) ^^^ CRC32_POLY else c / 2

/-- Fold one byte into the CRC state (bytes are `u8`, hence the `% 256`). -/
def crcByteStep (c b : Nat) : Nat :=
  crcBitStep^[8] (c ^^^ (b % 256))

/-- `crc32::checksum_ieee`: initial value 0xFFFFFFFF, final xor 0xFFFFFFFF. -/
def checksum_ieee (data : ByteString) : Nat :=
  (data.foldl crcByteStep 0xFFFFFFFF) ^^^ 0xFFFFFFFF

/-- The four little-endian bytes of a `u32` value (`usize` lengths are
truncated to 32 bits by the cast, which the `% 256` projections realise). -/
def le32 (v : Nat) : List Nat :=
  [v % 256, v / 256 % 256, v / 65536 % 256, v / 16777216 % 256]

/-- `read_u32::<LittleEndian>`: reassemble four bytes into a `u32`. -/
def read32 (b0 b1 b2 b3 : Nat) : Nat :=
  b0 + 256 * b1 + 65536 * b2 + 16777216 * b3

/-- Outcome of `process_record`:
`eof` is `ErrorKind::UnexpectedEof` (raised by `read_u32` when fewer than four
bytes remain), `corrupt` the `ErrorKind::Other` data-corruption error carrying
the computed and the stored checksum, `panicked` the abort inside
`data.split_off(key_len)` when `key_len` exceeds the buffer length, and `ok` a
decoded record. -/
inductive RecResult where
  | eof
  | corrupt (computed saved : Nat)
  | panicked
  | ok (kv : KeyValuePair)
  deriving Repr, DecidableEq

/-- `SimpleKV::process_record` on a byte stream.  Returns the outcome and the
unread remainder of the stream.  The three `read_u32` calls use `read_exact`,
so any stream shorter than 12 bytes yields `UnexpectedEof`; the body is read
with `take(data_len).read_to_end`, which silently returns fewer bytes when the
stream ends early.  `data_len` is the wrapping 32-bit sum of the two length
fields. -/
def process_record (s : List Nat) : RecResult × List Nat :=
  match s with
  | c0 :: c1 :: c2 :: c3 :: k0 :: k1 :: k2 :: k3 :: l0 :: l1 :: l2 :: l3 :: body =>
    let saved_checksum := read32 c0 c1 c2 c3
    let key_len := read32 k0 k1 k2 k3
    let val_len := read32 l0 l1 l2 l3
    let data_len := (key_len + val_len) % 4294967296
    let data := body.take data_len
    let rest := body.drop data_len
    let checksum := checksum_ieee data
    if checksum ≠ saved_checksum then (.corrupt checksum saved_checksum, rest)
    else if data.length < key_len then (.panicked, rest)
    else (.ok ⟨data.take key_len, data.drop key_len⟩, rest)
  | s => (.eof, s)

/-- The in-memory index (`HashMap<ByteString, u64>`), as a finite-support
lookup function. -/
abbrev Index := ByteString → Option Nat

def emptyIdx : Index := fun _ => none

/-- `HashMap::insert`: later insertions overwrite earlier ones. -/
def idxInsert (idx : Index) (k : ByteString) (v : Nat) : Index :=
  fun k' => if k' = k then some v else idx k'

/-- `struct SimpleKV`: the log file bytes, the handle's cursor, and the index. -/
structure SimpleKV where
  file : List Nat
  cursor : Nat
  index : Index

/-- `SimpleKV::open`: fresh handle (cursor 0) over the given file contents,
empty index. -/
def openStore (file : List Nat) : SimpleKV :=
  ⟨file, 0, emptyIdx⟩

/-- Fatal errors surfaced by scans and reads (everything except
`UnexpectedEof`, which the scan loops swallow). -/
inductive KVErr where
  | corrupt (computed saved : Nat)
  | panicked
  deriving Repr, DecidableEq

/-- The loop body of `SimpleKV::load`: record the position, decode one record,
insert `key ↦ position`, repeat; `UnexpectedEof` ends the loop, any other
error aborts.  The extra fuel argument only bounds the iteration count; every
iteration consumes at least 12 bytes, so `s.length + 1` fuel is never
exhausted. -/
def loadGo (idx : Index) (s : List Nat) (pos : Nat) : Nat → Index × Option KVErr
  | 0 => (idx, none)
  | fuel + 1 =>
    match process_record s with
    | (.eof, _) => (idx, none)
    | (.corrupt c sv, _) => (idx, some (.corrupt c sv))
    | (.panicked, _) => (idx, some .panicked)
    | (.ok kv, rest) =>
      loadGo (idxInsert idx kv.key pos) rest (pos + (s.length - rest.length)) fuel

/-- `SimpleKV::load`: scans from the handle's current cursor (the source never
seeks to the start), inserting each decoded key at its record's position.  The
cursor afterwards sits at end-of-file. -/
def load (st : SimpleKV) : SimpleKV × Option KVErr :=
  let s := st.file.drop st.cursor
  let r := loadGo st.index s st.cursor (s.length + 1)
  ({ st with index := r.1, cursor := st.file.length }, r.2)

/-- The loop body of `SimpleKV::find`: scan records, remembering the position
and value of the last record whose key equals the target. -/
def findGo (s : List Nat) (pos : Nat) (target : ByteString)
    (found : Option (Nat × ByteString)) : Nat → Option (Nat × ByteString) × Option KVErr
  | 0 => (found, none)
  | fuel + 1 =>
    match process_record s with
    | (.eof, _) => (found, none)
    | (.corrupt c sv, _) => (found, some (.corrupt c sv))
    | (.panicked, _) => (found, some .panicked)
    | (.ok kv, rest) =>
      findGo rest (pos + (s.length - rest.length)) target
        (if kv.key = target then some (pos, kv.value) else found) fuel

/-- `SimpleKV::find`: scans from the handle's current cursor (no rewind in the
source), returning the last match. -/
def find (st : SimpleKV) (target : ByteString) :
    (Option (Nat × ByteString) × Option KVErr) × SimpleKV :=
  let s := st.file.drop st.cursor
  (findGo s st.cursor target none (s.length + 1), { st with cursor := st.file.length })

/-- The bytes `insert_but_ignore_index` writes for one record: checksum over
`key ++ value`, the two `u32` length fields, then the body. -/
def encodeRecord (key value : ByteString) : List Nat :=
  le32 (checksum_ieee (key ++ value)) ++ le32 key.length ++ le32 value.length
    ++ (key ++ value)

/-- `SimpleKV::insert_but_ignore_index`: reads the handle's current position,
seeks to end-of-file, appends the encoded record, and returns that *prior
cursor position* (the source captures `seek(Current(0))` before the
`seek(End(0))`). -/
def insert_but_ignore_index (st : SimpleKV) (key value : ByteString) :
    SimpleKV × Nat :=
  let current_position := st.cursor
  let file := st.file ++ encodeRecord key value
  (⟨file, file.length, st.index⟩, current_position)

/-- `SimpleKV::insert`: append, then map the key to the returned position. -/
def insert (st : SimpleKV) (key value : ByteString) : SimpleKV :=
  let r := insert_but_ignore_index st key value
  ⟨r.1.file, r.1.cursor, idxInsert r.1.index key r.2⟩

/-- `SimpleKV::update` is `insert` verbatim. -/
def update (st : SimpleKV) (key value : ByteString) : SimpleKV :=
  insert st key value

/-- `SimpleKV::delete` is `insert` with the empty value. -/
def delete (st : SimpleKV) (key : ByteString) : SimpleKV :=
  insert st key []

/-- `SimpleKV::get_at`: seek to the given position and decode one record.
Every failure (including `UnexpectedEof`) propagates. -/
def get_at (st : SimpleKV) (position : Nat) : RecResult × SimpleKV :=
  ((process_record (st.file.drop position)).1,
    { st with cursor := max position st.file.length })

/-- Outcome of `SimpleKV::get`: `ok none` is the defined not-found result,
`ok (some v)` a present value, `err` a propagated decode failure. -/
inductive GetResult where
  | ok (value : Option ByteString)
  | err (e : RecResult)
  deriving Repr, DecidableEq

/-- `SimpleKV::get`: index lookup, then a positional read of the record. -/
def get (st : SimpleKV) (key : ByteString) : GetResult × SimpleKV :=
  match st.index key with
  | none => (.ok none, st)
  | some position =>
    match get_at st position with
    | (.ok kv, st') => (.ok (some kv.value), st')
    | (r, st') => (.err r, st')

/-- Well-formed log: a concatenation of encoded records whose key/value sizes
fit the 32-bit wire format. -/
inductive WFLog : List Nat → Prop where
  | nil : WFLog []
  | cons (k v : ByteString) (rest : List Nat) :
      k.length + v.length < 4294967296 → WFLog rest →
      WFLog (encodeRecord k v ++ rest)

/-- Store used by the counterexamples: a freshly opened handle (cursor 0) over
a file already holding the single record `("a", "1")`. -/
def store_a1 : SimpleKV := openStore (encodeRecord [97] [49])

/-- The store after `insert "a" "1"; insert "b" "2"; insert "a" "3"` starting
from an empty file. -/
def st3 : SimpleKV :=
  insert (insert (insert (openStore []) [97] [49]) [98] [50]) [97] [51]

end SimpleKVModel

namespace SimpleKVModel

/-! ### Basic facts about the codec -/

theorem le32_len (v : Nat) : (le32 v).length = 4 := rfl

theorem encodeRecord_len (k v : ByteString) :
    (encodeRecord k v).length = 12 + (k.length + v.length) := by
  simp [encodeRecord, le32]
  omega

/-- Reading back the four little-endian bytes of `v` yields `v` truncated to
32 bits. -/
theorem read32_le32 (v : Nat) :
    read32 (v % 256) (v / 256 % 256) (v / 65536 % 256) (v / 16777216 % 256)
      = v % 4294967296 := by
  unfold read32
  omega

theorem crcBitStep_lt {c : Nat} (h : c < 4294967296) : crcBitStep c < 4294967296 := by
  unfold crcBitStep
  split
  · have : c / 2 ^^^ CRC32_POLY < 2 ^ 32 :=
      Nat.xor_lt_two_pow (by omega) (by norm_num [CRC32_POLY])
    omega
  · omega

theorem crcBitStep_iterate_lt (n : Nat) {c : Nat} (h : c < 4294967296) :
    crcBitStep^[n] c < 4294967296 := by
  induction n generalizing c with
  | zero => simpa using h
  | succ n ih =>
    rw [Function.iterate_succ_apply]
    exact ih (crcBitStep_lt h)

theorem crcByteStep_lt {c : Nat} (h : c < 4294967296) (b : Nat) :
    crcByteStep c b < 4294967296 := by
  unfold crcByteStep
  refine crcBitStep_iterate_lt 8 ?_
  have : c ^^^ b % 256 < 2 ^ 32 := Nat.xor_lt_two_pow (by omega) (by omega)
  omega

/-- The CRC state always fits in 32 bits, so the stored checksum survives the
`u32` round trip unchanged. -/
theorem checksum_ieee_lt (data : ByteString) : checksum_ieee data < 4294967296 := by
  unfold checksum_ieee
  have hf : ∀ (l : ByteString) (c : Nat), c < 4294967296 →
      l.foldl crcByteStep c < 4294967296 := by
    intro l
    induction l with
    | nil => intro c h; simpa using h
    | cons b l ih => intro c h; exact ih _ (crcByteStep_lt h b)
  have h1 := hf data 0xFFFFFFFF (by norm_num)
  have : data.foldl crcByteStep 0xFFFFFFFF ^^^ 0xFFFFFFFF < 2 ^ 32 :=
    Nat.xor_lt_two_pow (by omega) (by norm_num)
  omega

/-- Any stream shorter than the 12-byte header decodes to the distinguished
end-of-stream outcome, leaving the stream untouched. -/
theorem process_record_eof {s : List Nat} (h : s.length < 12) :
    process_record s = (.eof, s) := by
  rcases s with _|⟨a,_|⟨b,_|⟨c,_|⟨d,_|⟨e,_|⟨f,_|⟨g,_|⟨h1,_|⟨i,_|⟨j,_|⟨k,_|⟨l,rest⟩⟩⟩⟩⟩⟩⟩⟩⟩⟩⟩⟩ <;>
    first
      | rfl
      | (simp at h; omega)

/-- Decoding an encoded record (with the lengths within the 32-bit wire
format) succeeds and consumes exactly the record. -/
theorem process_record_encode (k v tail : List Nat)
    (h : k.length + v.length < 4294967296) :
    process_record (encodeRecord k v ++ tail) = (.ok ⟨k, v⟩, tail) := by
  have hc := checksum_ieee_lt (k ++ v)
  simp only [encodeRecord, le32, List.cons_append, List.nil_append, List.append_assoc]
  simp only [process_record, read32_le32]
  rw [Nat.mod_eq_of_lt hc, Nat.mod_eq_of_lt (by omega : k.length < 4294967296),
    Nat.mod_eq_of_lt (by omega : v.length < 4294967296), Nat.mod_eq_of_lt h,
    ← List.append_assoc,
    show k.length + v.length = (k ++ v).length from (List.length_append _ _).symm,
    List.take_left, List.drop_left]
  rw [if_neg (by simp)]
  rw [if_neg (by rw [List.length_append]; omega)]
  rw [List.take_left, List.drop_left]

/-- A decode either reports end-of-stream or consumes at least the 12-byte
header. -/
theorem process_record_cases (s : List Nat) :
    (process_record s).1 = .eof ∨ (process_record s).2.length + 12 ≤ s.length := by
  rcases s with _|⟨a,_|⟨b,_|⟨c,_|⟨d,_|⟨e,_|⟨f,_|⟨g,_|⟨h1,_|⟨i,_|⟨j,_|⟨k,_|⟨l,rest⟩⟩⟩⟩⟩⟩⟩⟩⟩⟩⟩⟩ <;>
    first
      | (left; rfl)
      | (right
         simp only [process_record]
         split
         · simp [List.length_drop]
         · split <;> simp [List.length_drop])

theorem process_record_ok_le {s rest : List Nat} {kv : KeyValuePair}
    (h : process_record s = (.ok kv, rest)) : rest.length + 12 ≤ s.length := by
  rcases process_record_cases s with h1 | h1
  · rw [h] at h1
    exact absurd h1 (by simp)
  · rwa [h] at h1

end SimpleKVModel

namespace SimpleKVModel

/-- The iteration bound does not matter once it exceeds the stream length:
every loop iteration consumes at least 12 bytes. -/
theorem loadGo_fuel {idx : Index} {s : List Nat} {pos fuel fuel' : Nat}
    (h : s.length < fuel) (h' : s.length < fuel') :
    loadGo idx s pos fuel = loadGo idx s pos fuel' := by
  induction fuel generalizing idx s pos fuel' with
  | zero => omega
  | succ n ih =>
    cases fuel' with
    | zero => omega
    | succ m =>
      simp only [loadGo]
      rcases hp : process_record s with ⟨r, rest⟩
      rcases r with _ | ⟨c, sv⟩ | _ | kv <;> simp only [hp]
      have hle := process_record_ok_le hp
      exact ih (by omega) (by omega)

theorem findGo_fuel {s : List Nat} {pos : Nat} {t : ByteString}
    {acc : Option (Nat × ByteString)} {fuel fuel' : Nat}
    (h : s.length < fuel) (h' : s.length < fuel') :
    findGo s pos t acc fuel = findGo s pos t acc fuel' := by
  induction fuel generalizing s pos acc fuel' with
  | zero => omega
  | succ n ih =>
    cases fuel' with
    | zero => omega
    | succ m =>
      simp only [findGo]
      rcases hp : process_record s with ⟨r, rest⟩
      rcases r with _ | ⟨c, sv⟩ | _ | kv <;> simp only [hp]
      have hle := process_record_ok_le hp
      exact ih (by omega) (by omega)

end SimpleKVModel

namespace SimpleKVModel

/-- Scanning with the start position shifted by `c` shifts every reported
offset by `c` and nothing else: `find`'s scan depends only on the stream
suffix it is given. -/
theorem findGo_shift (c : Nat) : ∀ (fuel : Nat) (s : List Nat) (pos : Nat)
    (t : ByteString) (acc : Option (Nat × ByteString)),
    findGo s (pos + c) t (acc.map (fun pv => (pv.1 + c, pv.2))) fuel
      = ((findGo s pos t acc fuel).1.map (fun pv => (pv.1 + c, pv.2)),
         (findGo s pos t acc fuel).2) := by
  intro fuel
  induction fuel with
  | zero => intro s pos t acc; simp [findGo]
  | succ n ih =>
    intro s pos t acc
    simp only [findGo]
    rcases hp : process_record s with ⟨r, rest⟩
    rcases r with _ | ⟨cc, sv⟩ | _ | kv <;> simp only [hp]
    rw [show pos + c + (s.length - rest.length)
          = (pos + (s.length - rest.length)) + c by omega]
    rw [show (if kv.key = t then some (pos + c, kv.value) else
          acc.map (fun pv => (pv.1 + c, pv.2)))
        = ((if kv.key = t then some (pos, kv.value) else acc).map
            (fun pv => (pv.1 + c, pv.2))) by
      by_cases hk : kv.key = t <;> simp [hk]]
    exact ih rest _ t _

/-- Same shift property for `load`'s scan, phrased through the pointwise
relation between the two indexes being built. -/
theorem loadGo_shift (c : Nat) : ∀ (fuel : Nat) (s : List Nat) (pos : Nat)
    (idx idx' : Index), (∀ k, idx' k = (idx k).map (· + c)) →
    (∀ k, (loadGo idx' s (pos + c) fuel).1 k
        = ((loadGo idx s pos fuel).1 k).map (· + c))
      ∧ (loadGo idx' s (pos + c) fuel).2 = (loadGo idx s pos fuel).2 := by
  intro fuel
  induction fuel with
  | zero => intro s pos idx idx' hrel; exact ⟨hrel, rfl⟩
  | succ n ih =>
    intro s pos idx idx' hrel
    simp only [loadGo]
    rcases hp : process_record s with ⟨r, rest⟩
    rcases r with _ | ⟨cc, sv⟩ | _ | kv <;> simp only [hp]
    · exact ⟨hrel, trivial⟩
    · exact ⟨hrel, trivial⟩
    · exact ⟨hrel, trivial⟩
    · rw [show pos + c + (s.length - rest.length)
            = (pos + (s.length - rest.length)) + c by omega]
      refine ih rest _ _ _ ?_
      intro k'
      by_cases hk : k' = kv.key <;> simp [idxInsert, hk, hrel k']

end SimpleKVModel

namespace SimpleKVModel

/-- One successful iteration of `load`'s loop. -/
theorem loadGo_ok_step {s rest' : List Nat} {kv : KeyValuePair}
    (hp : process_record s = (.ok kv, rest')) (idx : Index) (pos fuel : Nat) :
    loadGo idx s pos (fuel + 1)
      = loadGo (idxInsert idx kv.key pos) rest' (pos + (s.length - rest'.length)) fuel := by
  simp only [loadGo, hp]

/-- One successful iteration of `find`'s loop. -/
theorem findGo_ok_step {s rest' : List Nat} {kv : KeyValuePair}
    (hp : process_record s = (.ok kv, rest')) (pos : Nat) (t : ByteString)
    (acc : Option (Nat × ByteString)) (fuel : Nat) :
    findGo s pos t acc (fuel + 1)
      = findGo rest' (pos + (s.length - rest'.length)) t
          (if kv.key = t then some (pos, kv.value) else acc) fuel := by
  simp only [findGo, hp]

/-- Scanning an empty stream returns the accumulator untouched, whatever the
fuel: the very first header read reports end-of-stream. -/
theorem findGo_nil (pos : Nat) (t : ByteString) (acc : Option (Nat × ByteString))
    (fuel : Nat) : findGo [] pos t acc fuel = (acc, none) := by
  cases fuel <;> simp [findGo, process_record]

theorem loadGo_nil (idx : Index) (pos fuel : Nat) :
    loadGo idx [] pos fuel = (idx, none) := by
  cases fuel <;> simp [loadGo, process_record]

/-- Scanning a well-formed log followed by `tail` passes over the log's
records and continues into `tail` at the shifted position (the index built so
far is existentially absorbed: later records overwrite earlier ones). -/
theorem loadGo_wf_skip {f : List Nat} (hwf : WFLog f) :
    ∀ (tail : List Nat) (pos : Nat) (idx : Index) (fuel : Nat),
      f.length + tail.length < fuel →
      ∃ idx', loadGo idx (f ++ tail) pos fuel
        = loadGo idx' tail (pos + f.length) (tail.length + 1) := by
  induction hwf with
  | nil =>
    intro tail pos idx fuel hfuel
    refine ⟨idx, ?_⟩
    simpa using loadGo_fuel (by simpa using hfuel) (by omega)
  | cons k v rest hlen hrest ih =>
    intro tail pos idx fuel hfuel
    have hlen12 := encodeRecord_len k v
    rw [List.length_append] at hfuel
    cases fuel with
    | zero => omega
    | succ n =>
      rw [List.append_assoc,
        loadGo_ok_step (process_record_encode k v (rest ++ tail) hlen)]
      have hcons : (encodeRecord k v ++ (rest ++ tail)).length - (rest ++ tail).length
          = (encodeRecord k v).length := by
        simp [List.length_append]
      rw [hcons]
      rcases ih tail (pos + (encodeRecord k v).length)
          (idxInsert idx k pos) n (by omega) with ⟨idx', hidx⟩
      refine ⟨idx', ?_⟩
      rw [hidx,
        show pos + (encodeRecord k v ++ rest).length
            = pos + (encodeRecord k v).length + rest.length by
          rw [List.length_append]; omega]

/-- `find`'s analogue of `loadGo_wf_skip`. -/
theorem findGo_wf_skip {f : List Nat} (hwf : WFLog f) :
    ∀ (tail : List Nat) (pos : Nat) (t : ByteString)
      (acc : Option (Nat × ByteString)) (fuel : Nat),
      f.length + tail.length < fuel →
      ∃ acc', findGo (f ++ tail) pos t acc fuel
        = findGo tail (pos + f.length) t acc' (tail.length + 1) := by
  induction hwf with
  | nil =>
    intro tail pos t acc fuel hfuel
    refine ⟨acc, ?_⟩
    simpa using findGo_fuel (by simpa using hfuel) (by omega)
  | cons k v rest hlen hrest ih =>
    intro tail pos t acc fuel hfuel
    have hlen12 := encodeRecord_len k v
    rw [List.length_append] at hfuel
    cases fuel with
    | zero => omega
    | succ n =>
      rw [List.append_assoc,
        findGo_ok_step (process_record_encode k v (rest ++ tail) hlen)]
      have hcons : (encodeRecord k v ++ (rest ++ tail)).length - (rest ++ tail).length
          = (encodeRecord k v).length := by
        simp [List.length_append]
      rw [hcons]
      rcases ih tail (pos + (encodeRecord k v).length) t
          (if k = t then some (pos, v) else acc) n
          (by omega) with ⟨acc', hacc⟩
      refine ⟨acc', ?_⟩
      rw [hacc,
        show pos + (encodeRecord k v ++ rest).length
            = pos + (encodeRecord k v).length + rest.length by
          rw [List.length_append]; omega]

end SimpleKVModel

namespace SimpleKVModel

/-! ### Claim C1 -/

/-- Claim C1, counterexample: on a freshly opened store over a file already
holding one 14-byte record (cursor 0), the append primitive does write the
new record at the true end of the file, but the offset it returns is 0 — the
handle's prior cursor position — not 14, the length of the file before the
write.  The record therefore does not begin at the returned offset. -/
theorem C1_counterexample :
    (insert_but_ignore_index store_a1 [98] [50]).2 = 0
      ∧ store_a1.file.length = 14
      ∧ (insert_but_ignore_index store_a1 [98] [50]).1.file
          = store_a1.file ++ encodeRecord [98] [50]
      ∧ (0 : Nat) ≠ 14 := by
  refine ⟨rfl, by decide, rfl, by decide⟩

/-- Claim C1 (amended): `insert_but_ignore_index` always appends the encoded
record at the true end of the file regardless of the cursor, and the offset it
returns is the handle's cursor position before the write — which equals the
length of the file before the write exactly when the cursor was at
end-of-file (as it is after `load`, a prior insert, or any other operation on
a freshly loaded store). -/
theorem C1_append_at_eof (st : SimpleKV) (key value : ByteString) :
    (insert_but_ignore_index st key value).1.file = st.file ++ encodeRecord key value
      ∧ (insert_but_ignore_index st key value).2 = st.cursor
      ∧ (st.cursor = st.file.length →
          (insert_but_ignore_index st key value).2 = st.file.length) := by
  exact ⟨rfl, rfl, fun h => h⟩

/-- Witness for the hypothesis of `C1_append_at_eof`, at the empty store. -/
theorem C1_append_at_eof_witness :
    (insert_but_ignore_index (openStore []) [97] [49]).2 = ([] : List Nat).length :=
  (C1_append_at_eof (openStore []) [97] [49]).2.2 rfl

/-! ### Claim C2 -/

/-- Claim C2, counterexample: on a freshly opened store over a file already
holding the record `("a", "1")` (cursor 0), inserting `("b", "2")` returns
offset 0, and `get_at` at that offset yields the *old* record
`("a", "1")`, not the record that was just inserted. -/
theorem C2_counterexample :
    (get_at (insert_but_ignore_index store_a1 [98] [50]).1
        (insert_but_ignore_index store_a1 [98] [50]).2).1
      = .ok ⟨[97], [49]⟩
      ∧ RecResult.ok ⟨[97], [49]⟩ ≠ RecResult.ok ⟨[98], [50]⟩ := by
  refine ⟨by decide, by decide⟩

/-- Claim C2 (amended): whenever the handle's cursor is at end-of-file before
the insert (the invariant maintained by normal use: load then operate), the
offset returned by `insert_but_ignore_index`, passed to `get_at`, yields
exactly the inserted key and value (keys and values within the 32-bit wire
format). -/
theorem C2_offset_stability (st : SimpleKV) (key value : ByteString)
    (hcur : st.cursor = st.file.length)
    (hlen : key.length + value.length < 4294967296) :
    (get_at (insert_but_ignore_index st key value).1
        (insert_but_ignore_index st key value).2).1
      = .ok ⟨key, value⟩ := by
  show (process_record ((st.file ++ encodeRecord key value).drop st.cursor)).1 = _
  rw [hcur, List.drop_left]
  rw [show encodeRecord key value = encodeRecord key value ++ [] by simp]
  rw [process_record_encode key value [] hlen]

/-- Witness for `C2_offset_stability` at a concrete store and record. -/
theorem C2_offset_stability_witness :
    (get_at (insert_but_ignore_index (openStore []) [97] [49]).1
        (insert_but_ignore_index (openStore []) [97] [49]).2).1
      = .ok ⟨[97], [49]⟩ :=
  C2_offset_stability (openStore []) [97] [49] rfl (by decide)

end SimpleKVModel

namespace SimpleKVModel

/-! ### Claim C3 -/

/-- Claim C3, counterexample: the stream `[0,0,0,0, 1,0,0,0, 1,0,0,0, 97]`
has a complete 12-byte header (stored checksum 0, key_len 1, val_len 1) but
supplies only one of the two promised body bytes.  Decoding it fails with the
*checksum-mismatch* (data-corruption) error — crc32 of the truncated body
against the stored checksum — not with any error kind distinct from it: the
code has no separate malformed-stream error. -/
theorem C3_counterexample :
    (List.length [0, 0, 0, 0, 1, 0, 0, 0, 1, 0, 0, 0, 97] = 13)
      ∧ process_record [0, 0, 0, 0, 1, 0, 0, 0, 1, 0, 0, 0, 97]
          = (.corrupt (checksum_ieee [97]) 0, [])
      ∧ checksum_ieee [97] ≠ 0 := by
  refine ⟨by decide, by decide, by decide⟩

/-- Claim C3 (amended): a stream that ends mid-body after a complete header is
rejected, but through the checksum: whenever the crc32 of the truncated body
differs from the stored checksum (the overwhelmingly common case), decoding
fails with the same data-corruption error used for checksum mismatches,
carrying the computed and stored values.  There is no distinct
malformed-stream error kind; a truncated body that happens to pass the
checksum instead panics or truncates (see C10). -/
theorem C3_truncated_body (c0 c1 c2 c3 k0 k1 k2 k3 l0 l1 l2 l3 : Nat)
    (body : List Nat)
    (hshort : body.length < (read32 k0 k1 k2 k3 + read32 l0 l1 l2 l3) % 4294967296)
    (hck : checksum_ieee body ≠ read32 c0 c1 c2 c3) :
    process_record
        (c0 :: c1 :: c2 :: c3 :: k0 :: k1 :: k2 :: k3 :: l0 :: l1 :: l2 :: l3 :: body)
      = (.corrupt (checksum_ieee body) (read32 c0 c1 c2 c3), []) := by
  simp only [process_record]
  rw [List.take_of_length_le (by omega), List.drop_eq_nil_of_le (by omega)]
  rw [if_pos hck]

/-- Witness for `C3_truncated_body`: stored checksum 1, key_len 2, empty
body. -/
theorem C3_truncated_body_witness :
    process_record [1, 0, 0, 0, 2, 0, 0, 0, 0, 0, 0, 0] = (.corrupt 0 1, []) := by
  have h := C3_truncated_body 1 0 0 0 2 0 0 0 0 0 0 0 [] (by decide) (by decide)
  simpa using h

/-! ### Claim C10 -/

/-- Claim C10: `process_record` is *not* total.  On the 12-byte stream with
stored checksum 0, key_len 1, val_len 0 and no body bytes, the truncated
(empty) body passes the checksum test (crc32 of the empty sequence is 0), and
the code then calls `data.split_off(1)` on a zero-length buffer, which
panics — the split index is out of bounds.  The model records this abort as
the `panicked` outcome. -/
theorem C10_split_panics :
    checksum_ieee [] = 0
      ∧ process_record [0, 0, 0, 0, 1, 0, 0, 0, 0, 0, 0, 0] = (.panicked, []) := by
  refine ⟨by decide, by decide⟩

end SimpleKVModel

namespace SimpleKVModel

/-! ### Claim C4 -/

/-- Claim C4, counterexample: `load` and `find` do *not* scan from offset 0.
On a store whose file holds the record `("a", "1")` at offset 0 but whose
handle cursor sits at end-of-file (position 14), `load` terminates without
indexing anything and `find` sees no records — while the same file scanned
from a fresh handle (cursor 0) does index `"a"` at offset 0. -/
theorem C4_counterexample :
    (load ⟨encodeRecord [97] [49], 14, emptyIdx⟩).1.index [97] = none
      ∧ (find ⟨encodeRecord [97] [49], 14, emptyIdx⟩ [97]).1.1 = none
      ∧ (load store_a1).1.index [97] = some 0 := by
  refine ⟨by decide, by decide, by decide⟩

/-- Claim C4 (amended): `load` and `find` scan the log starting at the
handle's current cursor position, not at offset 0.  Scanning a store
`⟨f, c, ∅⟩` is exactly scanning the suffix `f.drop c` from a zero cursor with
every reported offset shifted by `c`; in particular the whole log is scanned
from offset 0 precisely when the cursor is 0, as on a freshly opened store. -/
theorem C4_scan_from_cursor (f : List Nat) (c : Nat) (t : ByteString) :
    ((find ⟨f, c, emptyIdx⟩ t).1.1
        = ((find ⟨f.drop c, 0, emptyIdx⟩ t).1.1).map (fun pv => (pv.1 + c, pv.2)))
      ∧ (find ⟨f, c, emptyIdx⟩ t).1.2 = (find ⟨f.drop c, 0, emptyIdx⟩ t).1.2
      ∧ (∀ k, (load ⟨f, c, emptyIdx⟩).1.index k
          = ((load ⟨f.drop c, 0, emptyIdx⟩).1.index k).map (· + c))
      ∧ (load ⟨f, c, emptyIdx⟩).2 = (load ⟨f.drop c, 0, emptyIdx⟩).2 := by
  have hfind := findGo_shift c ((f.drop c).length + 1) (f.drop c) 0 t none
  have hload := loadGo_shift c ((f.drop c).length + 1) (f.drop c) 0 emptyIdx emptyIdx
    (by intro k; simp [emptyIdx])
  simp only [Nat.zero_add, Option.map_none'] at hfind hload
  simp only [find, load, List.drop_zero]
  exact ⟨by rw [hfind], by rw [hfind], hload.1, hload.2⟩

end SimpleKVModel

namespace SimpleKVModel

/-! ### Claim C5 -/

/-- Claim C5, counterexample: a record for a 1-byte key and 1-byte value
occupies 12 + 1 + 1 = 14 bytes, so starting from an empty file the second
insert begins at offset 14, not 15 as the claim states. -/
theorem C5_counterexample :
    (insert_but_ignore_index (insert (openStore []) [97] [49]) [98] [50]).2 = 14
      ∧ (14 : Nat) ≠ 15 := by
  refine ⟨by decide, by decide⟩

/-- Claim C5 (amended): starting from an empty file, the three inserts return
offsets 0, 14 and 28 (records are 14 bytes, not 15); `get "a"` then yields
`"3"` and `get "b"` yields `"2"`.  `find "a"` yields `(28, "3")` when the scan
runs from a fresh handle (cursor 0); on the same handle directly after the
inserts the cursor sits at end-of-file and `find` returns nothing.  A fresh
`load` yields exactly the index `{a ↦ 28, b ↦ 14}`. -/
theorem C5_scenario :
    (insert_but_ignore_index (openStore []) [97] [49]).2 = 0
      ∧ (insert_but_ignore_index (insert (openStore []) [97] [49]) [98] [50]).2 = 14
      ∧ (insert_but_ignore_index
            (insert (insert (openStore []) [97] [49]) [98] [50]) [97] [51]).2 = 28
      ∧ (get st3 [97]).1 = .ok (some [51])
      ∧ (get st3 [98]).1 = .ok (some [50])
      ∧ (find st3 [97]).1 = (none, none)
      ∧ (find (openStore st3.file) [97]).1 = (some (28, [51]), none)
      ∧ (load (openStore st3.file)).1.index [97] = some 28
      ∧ (load (openStore st3.file)).1.index [98] = some 14
      ∧ (∀ k : ByteString, k ≠ [97] → k ≠ [98] →
          (load (openStore st3.file)).1.index k = none) := by
  have hidx : (load (openStore st3.file)).1.index
      = idxInsert (idxInsert (idxInsert emptyIdx [97] 0) [98] 14) [97] 28 := by
    rfl
  refine ⟨by decide, by decide, by decide, by decide, by decide, by decide,
    by decide, by decide, by decide, ?_⟩
  intro k h1 h2
  rw [hidx]
  simp [idxInsert, emptyIdx, h1, h2]

/-- Witness for the final, hypothesis-bearing component of `C5_scenario`. -/
theorem C5_scenario_witness :
    (load (openStore st3.file)).1.index [99] = none :=
  C5_scenario.2.2.2.2.2.2.2.2.2 [99] (by decide) (by decide)

end SimpleKVModel


namespace SimpleKVModel

theorem process_record_key_lt {s rest : List Nat} {kv : KeyValuePair}
    (h : process_record s = (.ok kv, rest)) : kv.key.length < 4294967296 := by
  rcases s with _|⟨a,_|⟨b,_|⟨c,_|⟨d,_|⟨e,_|⟨f,_|⟨g,_|⟨h1,_|⟨i,_|⟨j,_|⟨k,_|⟨l,body⟩⟩⟩⟩⟩⟩⟩⟩⟩⟩⟩⟩ <;>
    simp [process_record] at h
  split at h
  · split at h
    · simp at h
    · obtain ⟨hkv, hrest⟩ := h
      simp only [List.length_take]
      omega
  · simp at h

end SimpleKVModel

namespace SimpleKVModel

/-- Claim C6, counterexample: the round trip is *not* the identity for every
byte sequence.  A key of 2^32 bytes has its `key_len` truncated to 0 by the
`u32` cast, so decoding the encoded record can never return the original
key — every decoded key is shorter than 2^32 bytes. -/
theorem C6_counterexample :
    (process_record (encodeRecord (List.replicate 4294967296 0) [])).1
      ≠ .ok ⟨List.replicate 4294967296 0, []⟩ := by
  intro hcontra
  rcases hres : process_record (encodeRecord (List.replicate 4294967296 0) []) with ⟨r, rest⟩
  rw [hres] at hcontra
  subst hcontra
  have hlt := process_record_key_lt hres
  rw [show (⟨List.replicate 4294967296 0, []⟩ : KeyValuePair).key
      = List.replicate 4294967296 (0 : Nat) from rfl] at hlt
  rw [List.length_replicate] at hlt
  exact absurd hlt (by norm_num)

end SimpleKVModel

namespace SimpleKVModel

/-- Claim C6 (amended): for all key and value byte sequences that jointly fit
the 32-bit wire format (`key.length + value.length < 2^32`, which includes
every combination of empty key and empty value), encoding a record and
decoding it back succeeds — the checksum verification passes — and yields
exactly the original key and value, consuming the whole encoding. -/
theorem C6_roundtrip (key value : ByteString)
    (h : key.length + value.length < 4294967296) :
    process_record (encodeRecord key value) = (.ok ⟨key, value⟩, []) := by
  have hmain := process_record_encode key value [] h
  rwa [List.append_nil] at hmain

/-- Witness for `C6_roundtrip`, including the empty-key and empty-value
cases. -/
theorem C6_roundtrip_witness :
    process_record (encodeRecord [104, 105] [33]) = (.ok ⟨[104, 105], [33]⟩, [])
      ∧ process_record (encodeRecord [] []) = (.ok ⟨[], []⟩, []) :=
  ⟨C6_roundtrip [104, 105] [33] (by decide), C6_roundtrip [] [] (by decide)⟩

/-! ### Claim C7 -/

/-- Claim C7, counterexample: insert `K` with value `A` then value `B` on a
fresh store; `get K` returns `B`, but `find K` run on the same handle returns
nothing at all (the scan starts at the handle's cursor, which the inserts left
at end-of-file), not `B` as the claim states. -/
theorem C7_counterexample :
    (get (insert (insert (openStore []) [107] [65]) [107] [66]) [107]).1
        = .ok (some [66])
      ∧ (find (insert (insert (openStore []) [107] [65]) [107] [66]) [107]).1.1
        = none := by
  refine ⟨by decide, by decide⟩

/-- Claim C7 (amended): for every store with a well-formed log, inserting key
`K` with value `A` and then value `B` (sizes within the wire format) gives:
`get K` returns `B`; `find K` returns `(offset of B's record, B)` when the
scan runs from a fresh handle over the resulting file (cursor 0 — on the
handle that performed the inserts the scan starts at end-of-file and finds
nothing); and a fresh `load` of the resulting file maps `K` to the offset of
`B`'s record, its last occurrence in file order. -/
theorem C7_last_write_wins (st : SimpleKV) (K A B : ByteString)
    (hwf : WFLog st.file)
    (hA : K.length + A.length < 4294967296)
    (hB : K.length + B.length < 4294967296) :
    (get (insert (insert st K A) K B) K).1 = .ok (some B)
      ∧ (find (openStore (insert (insert st K A) K B).file) K).1
          = (some (st.file.length + (encodeRecord K A).length, B), none)
      ∧ (load (openStore (insert (insert st K A) K B).file)).1.index K
          = some (st.file.length + (encodeRecord K A).length) := by
  have hfile : (insert (insert st K A) K B).file
      = (st.file ++ encodeRecord K A) ++ encodeRecord K B := rfl
  have hlenA := encodeRecord_len K A
  have hlenB := encodeRecord_len K B
  refine ⟨?_, ?_, ?_⟩
  · -- get sees the index entry written by the second insert
    have hidx : (insert (insert st K A) K B).index K
        = some ((st.file ++ encodeRecord K A).length) := by
      simp [insert, insert_but_ignore_index, idxInsert]
    simp only [get, hidx, get_at, hfile, List.drop_left]
    rw [show encodeRecord K B = encodeRecord K B ++ [] by simp,
      process_record_encode K B [] hB]
  · -- find on a fresh handle scans the whole file
    simp only [find, openStore, List.drop_zero]
    rw [hfile, List.append_assoc]
    rcases findGo_wf_skip hwf (encodeRecord K A ++ encodeRecord K B) 0 K none
        ((st.file ++ (encodeRecord K A ++ encodeRecord K B)).length + 1)
        (by simp [List.length_append]) with ⟨acc', hskip⟩
    rw [hskip]
    rw [findGo_ok_step (process_record_encode K A (encodeRecord K B) hA)]
    have hc1 : (encodeRecord K A ++ encodeRecord K B).length
        - (encodeRecord K B).length = (encodeRecord K A).length := by
      simp [List.length_append]
    rw [hc1]
    have hgt : (encodeRecord K B).length
        < (encodeRecord K A ++ encodeRecord K B).length := by
      rw [List.length_append]; omega
    rw [findGo_fuel hgt
        (by omega : (encodeRecord K B).length < (encodeRecord K B).length + 1)]
    rw [show encodeRecord K B = encodeRecord K B ++ [] by simp]
    rw [findGo_ok_step (process_record_encode K B [] hB)]
    rw [findGo_nil]
    simp
  · -- a fresh load maps K to the offset of the second record
    simp only [load, openStore, List.drop_zero]
    rw [hfile, List.append_assoc]
    rcases loadGo_wf_skip hwf (encodeRecord K A ++ encodeRecord K B) 0 emptyIdx
        ((st.file ++ (encodeRecord K A ++ encodeRecord K B)).length + 1)
        (by simp [List.length_append]) with ⟨idx', hskip⟩
    rw [hskip]
    rw [loadGo_ok_step (process_record_encode K A (encodeRecord K B) hA)]
    have hc1 : (encodeRecord K A ++ encodeRecord K B).length
        - (encodeRecord K B).length = (encodeRecord K A).length := by
      simp [List.length_append]
    rw [hc1]
    have hgt : (encodeRecord K B).length
        < (encodeRecord K A ++ encodeRecord K B).length := by
      rw [List.length_append]; omega
    rw [loadGo_fuel hgt
        (by omega : (encodeRecord K B).length < (encodeRecord K B).length + 1)]
    rw [show encodeRecord K B = encodeRecord K B ++ [] by simp]
    rw [loadGo_ok_step (process_record_encode K B [] hB)]
    rw [loadGo_nil]
    simp [idxInsert]

end SimpleKVModel

namespace SimpleKVModel

/-- Witness for `C7_last_write_wins` on a fresh store: insert key `k` with
`A` then `B`; `get` returns `B`, a fresh-handle `find` returns `(14, B)`
(the second record starts at offset 14), and a fresh `load` maps the key
there too. -/
theorem C7_last_write_wins_witness :
    (get (insert (insert (openStore []) [107] [65]) [107] [66]) [107]).1
        = .ok (some [66])
      ∧ (find (openStore (insert (insert (openStore []) [107] [65]) [107] [66]).file)
          [107]).1 = (some (14, [66]), none)
      ∧ (load (openStore (insert (insert (openStore []) [107] [65]) [107] [66]).file)).1.index
          [107] = some 14 := by
  obtain ⟨h1, h2, h3⟩ :=
    C7_last_write_wins (openStore []) [107] [65] [66] WFLog.nil (by decide) (by decide)
  refine ⟨h1, ?_, ?_⟩
  · simpa [openStore, encodeRecord_len] using h2
  · simpa [openStore, encodeRecord_len] using h3

/-! ### Claim C8 -/

/-- Claim C8: deleting a previously inserted key appends a tombstone record
with an empty value, keeps the key in the index mapped to that tombstone's
offset (the end of the file before the tombstone was appended), and a
subsequent `get` returns a present-but-empty value, not absence.  Keys are
bounded by the `u32` wire format, as everywhere in this codec. -/
theorem C8_tombstone (st : SimpleKV) (K v : ByteString)
    (hK : K.length < 4294967296) :
    (delete (insert st K v) K).file
        = (insert st K v).file ++ encodeRecord K []
      ∧ (delete (insert st K v) K).index K = some ((insert st K v).file.length)
      ∧ (get (delete (insert st K v) K) K).1 = .ok (some []) := by
  have hidx : (delete (insert st K v) K).index K
      = some ((insert st K v).file.length) := by
    simp [delete, insert, insert_but_ignore_index, idxInsert]
  refine ⟨rfl, hidx, ?_⟩
  simp only [get, hidx, get_at,
    show (delete (insert st K v) K).file
        = (insert st K v).file ++ encodeRecord K [] from rfl,
    List.drop_left]
  rw [show encodeRecord K [] = encodeRecord K [] ++ [] by simp,
    process_record_encode K [] [] (by simpa using hK)]

/-- Witness for `C8_tombstone` at a concrete key. -/
theorem C8_tombstone_witness :
    (get (delete (insert (openStore []) [100] [7]) [100]) [100]).1
      = .ok (some []) :=
  (C8_tombstone (openStore []) [100] [7] (by decide)).2.2

/-! ### Claim C9 -/

/-- Claim C9: a stream that ends before the 12-byte header is complete
decodes to the distinguished end-of-stream outcome (never any other error
kind), and consequently `load` and `find` on an empty file terminate
immediately and successfully: `load` leaves the index empty and reports no
error, `find` reports absence. -/
theorem C9_empty_scan :
    (∀ s : List Nat, s.length < 12 → (process_record s).1 = .eof)
      ∧ (load (openStore [])).1.index = emptyIdx
      ∧ (load (openStore [])).2 = none
      ∧ (∀ t, (find (openStore []) t).1 = (none, none)) := by
  refine ⟨?_, rfl, rfl, fun t => rfl⟩
  intro s h
  rw [process_record_eof h]

/-- Witness for `C9_empty_scan` on a 3-byte stream and a concrete target. -/
theorem C9_empty_scan_witness :
    (process_record [7, 7, 7]).1 = .eof
      ∧ (find (openStore []) [97]).1 = (none, none) :=
  ⟨C9_empty_scan.1 [7, 7, 7] (by decide), C9_empty_scan.2.2.2 [97]⟩

end SimpleKVModel
